import Mathlib

/-!
Verification of the compression framing layer of `src/bytes/compress.rs`.

Bytes are modelled as natural numbers below 256 inside `List Nat`; a byte
source is a list consumed from the front, and a byte sink is the list of
bytes produced.  Fallible operations return `Except IoError`, mirroring
`Result<_, std::io::Error>`.  The four non-trivial compression algorithms
(gzip, deflate, brotli, LZW) are external collaborators in the crate; they
are modelled as an abstract environment of codecs, each a pair of total
`comp` and fallible `decomp` maps over byte lists.
-/

/-- Kind of a Rust `std::io::Error`, restricted to the kinds this module
produces: `InvalidInput` (explicitly constructed for bad headers) and
`UnexpectedEof` (produced by `read_exact` on a short source). -/
inductive IoErrorKind where
  | invalidInput
  | unexpectedEof
  deriving DecidableEq, Repr

/-- Model of `std::io::Error`: a kind plus a message. -/
structure IoError where
  kind : IoErrorKind
  msg : String
  deriving DecidableEq, Repr

/-- The error built at lines 132 and 147 of `compress.rs`:
`std::io::Error::new(std::io::ErrorKind::InvalidInput, "Invalid compression header")`. -/
def invalidHeaderErr : IoError :=
  { kind := IoErrorKind.invalidInput, msg := "Invalid compression header" }

/-- The error `Read::read_exact` returns when the source holds fewer bytes
than requested. -/
def eofErr : IoError :=
  { kind := IoErrorKind.unexpectedEof, msg := "failed to fill whole buffer" }

/-- Modelled from the spec: the varint decoder of `bytes/varnum.rs` (not part
of the provided sources) "must fail cleanly" when the continuation bits never
terminate within 5 bytes; this is its error value. -/
def varnumOverflowErr : IoError :=
  { kind := IoErrorKind.invalidInput, msg := "Invalid varnum" }

/-- The `Compression` enum of `compress.rs`, lines 13-24. -/
inductive Compression where
  | Identity
  | Gzip
  | Deflate
  | Brotli
  | Lzw
  deriving DecidableEq, Repr

/-- The `CompressionResult` struct of `compress.rs`, lines 27-30. -/
structure CompressionResult where
  before : Nat
  after : Nat
  deriving DecidableEq, Repr

/-- The `Compression::values()` helper, lines 33-36. -/
def Compression.values : List Compression :=
  [Compression.Identity, Compression.Gzip, Compression.Deflate,
   Compression.Brotli, Compression.Lzw]

/-- Rust `Debug` rendering of a `Compression` value, as used by the
`println!` at line 191. -/
def Compression.debugName : Compression → String
  | Compression.Identity => "Identity"
  | Compression.Gzip => "Gzip"
  | Compression.Deflate => "Deflate"
  | Compression.Brotli => "Brotli"
  | Compression.Lzw => "Lzw"

/-- ASCII bytes of `b"identity"`. -/
def bIdentity : List Nat := [105, 100, 101, 110, 116, 105, 116, 121]

/-- ASCII bytes of `b"gzip"`. -/
def bGzip : List Nat := [103, 122, 105, 112]

/-- ASCII bytes of `b"deflate"`. -/
def bDeflate : List Nat := [100, 101, 102, 108, 97, 116, 101]

/-- ASCII bytes of `b"br"`. -/
def bBr : List Nat := [98, 114]

/-- ASCII bytes of `b"compress"`. -/
def bCompress : List Nat := [99, 111, 109, 112, 114, 101, 115, 115]

/-- The ASCII byte of the delimiter `b';'`. -/
def semi : Nat := 59

/-- Token bytes (without the delimiter) of each algorithm. -/
def tokenBytes : Compression → List Nat
  | Compression.Identity => bIdentity
  | Compression.Gzip => bGzip
  | Compression.Deflate => bDeflate
  | Compression.Brotli => bBr
  | Compression.Lzw => bCompress

/-- The header `compress` writes first: token followed by `;`, matching the
`write_all(b"identity;")` (etc.) calls at lines 46, 53, 66, 79, 94. -/
def tokenOf (c : Compression) : List Nat := tokenBytes c ++ [semi]

/-- Modelled from the spec: `write_varnum` of `bytes/varnum.rs` (not part of
the provided sources) is a standard base-128 variable-length encoding,
7 data bits per byte, continuation bit in the high bit, little-endian group
order.  `fuel` bounds the number of groups still writable; the recursion is
structural in it. -/
def writeVarnumAux : Nat → Nat → List Nat
  | 0, n => [n % 128]
  | fuel + 1, n =>
    if n < 128 then [n]
    else (n % 128 + 128) :: writeVarnumAux fuel (n / 128)

/-- Modelled from the spec: the varint encoder for a `u32` value; five
base-128 groups are the maximum needed for 32 bits. -/
def writeVarnum (n : Nat) : List Nat := writeVarnumAux 5 n

/-- Modelled from the spec: `read_varnum` of `bytes/varnum.rs` (not part of
the provided sources) reads base-128 groups, little-endian, continuation in
the high bit, and fails cleanly if the continuation bits never terminate
within 5 bytes (the maximum needed for 32 bits).  `fuel` counts the bytes
still allowed, `shift` the bit position of the next group, `acc` the value
so far.  Returns the decoded value and the unconsumed rest of the source. -/
def readVarnum : Nat → Nat → Nat → List Nat → Except IoError Nat × List Nat
  | 0, _, _, inp => (Except.error varnumOverflowErr, inp)
  | _ + 1, _, _, [] => (Except.error eofErr, [])
  | fuel + 1, shift, acc, b :: rest =>
    if b < 128 then (Except.ok (acc + b * 2 ^ shift), rest)
    else readVarnum fuel (shift + 7) (acc + (b - 128) * 2 ^ shift) rest

/-- An external compression collaborator: a total compressor and a fallible
decompressor over byte lists (spec section 6: `compress(bytes) -> bytes`,
`decompress(bytes) -> bytes` failing on malformed input). -/
structure Codec where
  comp : List Nat → List Nat
  decomp : List Nat → Except IoError (List Nat)

/-- The four external codecs `compress.rs` dispatches to. -/
structure CodecEnv where
  gzip : Codec
  deflate : Codec
  brotli : Codec
  lzw : Codec

/-- The collaborator contract of spec section 6: each codec must decompress
back to the exact input it compressed. -/
def Codec.RoundTrip (c : Codec) : Prop :=
  ∀ d : List Nat, c.decomp (c.comp d) = Except.ok d

/-- All four codecs of an environment satisfy the collaborator contract. -/
def GoodEnv (env : CodecEnv) : Prop :=
  env.gzip.RoundTrip ∧ env.deflate.RoundTrip ∧ env.brotli.RoundTrip ∧
    env.lzw.RoundTrip

/-- A trivial environment whose codecs are the identity; it satisfies the
collaborator contract and is used for concrete evaluations. -/
def trivialEnv : CodecEnv :=
  let idCodec : Codec := { comp := fun d => d, decomp := fun d => Except.ok d }
  { gzip := idCodec, deflate := idCodec, brotli := idCodec, lzw := idCodec }

/-- The compressed body each arm of `Compression::compress` produces for the
input `data` (lines 44-107): `data` itself for `Identity`, otherwise the
output of the corresponding external codec. -/
def bodyOf (env : CodecEnv) : Compression → List Nat → List Nat
  | Compression.Identity, data => data
  | Compression.Gzip, data => env.gzip.comp data
  | Compression.Deflate, data => env.deflate.comp data
  | Compression.Brotli, data => env.brotli.comp data
  | Compression.Lzw, data => env.lzw.comp data

/-- `Compression::compress` (lines 42-112) with a `Vec` sink: every arm
writes the token with its `;`, then `write_varnum(buffer.len() as u32)` --
the `as u32` cast is the reduction modulo `2 ^ 32` -- then the compressed
body.  Returns the bytes written and the `CompressionResult` whose `before`
is `data.len()` and whose `after` is the untruncated body length. -/
def compress (env : CodecEnv) (c : Compression) (data : List Nat) :
    List Nat × CompressionResult :=
  let body := bodyOf env c data
  (tokenOf c ++ writeVarnum (body.length % 2 ^ 32) ++ body,
   { before := data.length, after := body.length })

/-- The header scan loop of `Compression::decompress` (lines 120-129): read
one byte at a time, at most `fuel` of them (`MAX_LENGTH = 32`), accumulating
bytes until a `;` is found.  Returns either the accumulated header (bytes
before the `;`) or the error of lines 131-133 when the bound is exhausted,
or `read_exact`'s EOF error when the source runs dry; alongside, the
unconsumed rest of the source. -/
def scanHeader : Nat → List Nat → Except IoError (List Nat) × List Nat
  | 0, inp => (Except.error invalidHeaderErr, inp)
  | _ + 1, [] => (Except.error eofErr, [])
  | fuel + 1, b :: rest =>
    if b = semi then (Except.ok [], rest)
    else
      match scanHeader fuel rest with
      | (Except.ok h, r) => (Except.ok (b :: h), r)
      | (Except.error e, r) => (Except.error e, r)

/-- The token-resolution chain of `Compression::decompress` (lines 135-148):
the accumulated header must equal one of the five byte-literals exactly,
otherwise the `InvalidInput` error of line 147 is returned. -/
def resolveToken (header : List Nat) : Except IoError Compression :=
  if header = bIdentity then Except.ok Compression.Identity
  else if header = bGzip then Except.ok Compression.Gzip
  else if header = bDeflate then Except.ok Compression.Deflate
  else if header = bBr then Except.ok Compression.Brotli
  else if header = bCompress then Except.ok Compression.Lzw
  else Except.error invalidHeaderErr

/-- The decompression dispatch of lines 157-189: `Identity` passes the body
through unchanged, the other four arms call the external decompressor. -/
def decompBody (env : CodecEnv) : Compression → List Nat →
    Except IoError (List Nat)
  | Compression.Identity, b => Except.ok b
  | Compression.Gzip, b => env.gzip.decomp b
  | Compression.Deflate, b => env.deflate.decomp b
  | Compression.Brotli, b => env.brotli.decomp b
  | Compression.Lzw, b => env.lzw.decomp b

/-- The console line the `println!` at line 191 emits. -/
def consoleMsg (c : Compression) (byteLen outLen : Nat) : String :=
  "Compression detected: " ++ c.debugName ++ ", " ++ toString byteLen ++
    " bytes => " ++ toString outLen

/-- `Compression::decompress` (lines 114-195), generic over the injected
deserializer (`T: Deserializer`, here a function from the decompressed bytes
to a value or an error).  Returns the call's result, the unconsumed rest of
the byte source, and the list of console lines printed.  On a short body
read, `read_exact` consumes what is available and fails with EOF
(line 155). -/
def decompress {α : Type} (env : CodecEnv)
    (deserializer : List Nat → Except IoError α) (inp : List Nat) :
    Except IoError α × List Nat × List String :=
  match scanHeader 32 inp with
  | (Except.error e, r) => (Except.error e, r, [])
  | (Except.ok header, r1) =>
    match resolveToken header with
    | Except.error e => (Except.error e, r1, [])
    | Except.ok compression =>
      match readVarnum 5 0 0 r1 with
      | (Except.error e, r2) => (Except.error e, r2, [])
      | (Except.ok byteLen, r2) =>
        if byteLen ≤ r2.length then
          let compressedBytes := r2.take byteLen
          let r3 := r2.drop byteLen
          match decompBody env compression compressedBytes with
          | Except.error e => (Except.error e, r3, [])
          | Except.ok decompressedBytes =>
            let log := [consoleMsg compression byteLen
              decompressedBytes.length]
            match deserializer decompressedBytes with
            | Except.error e => (Except.error e, r3, log)
            | Except.ok value => (Except.ok value, r3, log)
        else (Except.error eofErr, [], [])

/-- The identity deserializer: yields the decompressed bytes unchanged. -/
def idDeser : List Nat → Except IoError (List Nat) := fun bs => Except.ok bs

/-! Helper lemmas. -/

/-- When the source starts with a semicolon-free prefix `h` shorter than the
fuel, followed by `;`, the header scan returns `h` and leaves exactly the
bytes after the delimiter. -/
lemma scanHeader_found (h : List Nat) : ∀ (fuel : Nat) (rest : List Nat),
    h.length < fuel → (∀ b ∈ h, b ≠ semi) →
    scanHeader fuel (h ++ semi :: rest) = (Except.ok h, rest) := by
  induction h with
  | nil =>
    intro fuel rest hf _
    cases fuel with
    | zero => omega
    | succ f => simp [scanHeader]
  | cons b t ih =>
    intro fuel rest hf hb
    cases fuel with
    | zero => simp at hf
    | succ f =>
      have hbne : b ≠ semi := hb b (List.mem_cons_self b t)
      have ht : ∀ x ∈ t, x ≠ semi := fun x hx => hb x (List.mem_cons_of_mem b hx)
      simp only [List.cons_append, scanHeader, if_neg hbne, List.append_eq]
      rw [ih f rest (by simpa using hf) ht]

/-- When the first `fuel` bytes of the source exist and none of them is a
semicolon, the header scan consumes exactly `fuel` bytes and fails with the
invalid-header error. -/
lemma scanHeader_nosemi : ∀ (fuel : Nat) (inp : List Nat), fuel ≤ inp.length →
    (∀ b ∈ inp.take fuel, b ≠ semi) →
    scanHeader fuel inp = (Except.error invalidHeaderErr, inp.drop fuel) := by
  intro fuel
  induction fuel with
  | zero => intro inp _ _; simp [scanHeader]
  | succ f ih =>
    intro inp hlen hb
    cases inp with
    | nil => simp at hlen
    | cons b rest =>
      have hbne : b ≠ semi := hb b (by simp)
      have hrest : ∀ x ∈ rest.take f, x ≠ semi := by
        intro x hx
        exact hb x (by simp [List.take_cons]; exact Or.inr hx)
      simp only [scanHeader, if_neg hbne]
      rw [ih rest (by simpa using hlen) hrest]
      rfl

/-- Reading back an encoded varint with matching fuel recovers the encoded
value (generalized over the running shift and accumulator) and leaves the
trailing bytes untouched. -/
lemma readVarnum_writeVarnumAux : ∀ (fuel shift acc n : Nat) (rest : List Nat),
    n < 128 ^ (fuel + 1) →
    readVarnum (fuel + 1) shift acc (writeVarnumAux (fuel + 1) n ++ rest) =
      (Except.ok (acc + n * 2 ^ shift), rest) := by
  intro fuel
  induction fuel with
  | zero =>
    intro shift acc n rest hn
    have h128 : n < 128 := by simpa using hn
    simp [writeVarnumAux, readVarnum, if_pos h128]
  | succ f ih =>
    intro shift acc n rest hn
    by_cases h128 : n < 128
    · simp [writeVarnumAux, readVarnum, if_pos h128]
    · have hbig : ¬ (n % 128 + 128 < 128) := by omega
      have hdiv : n / 128 < 128 ^ (f + 1) := by
        rw [Nat.div_lt_iff_lt_mul (by norm_num)]
        calc n < 128 ^ (f + 1 + 1) := hn
          _ = 128 ^ (f + 1) * 128 := by rw [pow_succ]
      have hstep : writeVarnumAux (f + 1 + 1) n =
          (n % 128 + 128) :: writeVarnumAux (f + 1) (n / 128) := by
        rw [writeVarnumAux, if_neg h128]
      rw [hstep, List.cons_append, readVarnum, if_neg hbig]
      rw [ih (shift + 7) (acc + (n % 128 + 128 - 128) * 2 ^ shift) (n / 128)
        rest hdiv]
      simp only [Nat.add_sub_cancel]
      have hval : acc + n % 128 * 2 ^ shift + n / 128 * 2 ^ (shift + 7) =
          acc + n * 2 ^ shift := by
        conv_rhs => rw [← Nat.mod_add_div n 128]
        have h7 : (2 : Nat) ^ 7 = 128 := rfl
        rw [pow_add, h7]
        ring
      rw [hval]

/-- Round trip for the varint codec on any `u32` value: the decoder recovers
the encoded value and consumes exactly the encoder's bytes. -/
lemma readVarnum_writeVarnum (n : Nat) (rest : List Nat) (hn : n < 2 ^ 32) :
    readVarnum 5 0 0 (writeVarnum n ++ rest) = (Except.ok n, rest) := by
  have h35 : n < 128 ^ 5 := lt_trans hn (by norm_num)
  have := readVarnum_writeVarnumAux 4 0 0 n rest h35
  simpa [writeVarnum] using this

/-- Every algorithm token is shorter than the 32-byte scan bound. -/
lemma tokenBytes_length_lt (c : Compression) : (tokenBytes c).length < 32 := by
  cases c <;> decide

/-- No algorithm token contains the delimiter byte. -/
lemma tokenBytes_ne_semi (c : Compression) : ∀ b ∈ tokenBytes c, b ≠ semi := by
  cases c <;> decide

/-- Each algorithm's own token resolves back to that algorithm. -/
lemma resolveToken_tokenBytes (c : Compression) :
    resolveToken (tokenBytes c) = Except.ok c := by
  cases c <;> rfl

/-- Master evaluation of `decompress` on a source beginning with a
well-formed header (a known token, the delimiter, a varint-encoded length):
the call reduces to the body read, dispatch and deserialization over the
remaining `tail`. -/
lemma decompress_header_ok {α : Type} (env : CodecEnv)
    (deserializer : List Nat → Except IoError α) (c : Compression)
    (len : Nat) (tail : List Nat) (hlen : len < 2 ^ 32) :
    decompress env deserializer (tokenOf c ++ writeVarnum len ++ tail) =
      if len ≤ tail.length then
        match decompBody env c (tail.take len) with
        | Except.error e => (Except.error e, tail.drop len, [])
        | Except.ok dec =>
          match deserializer dec with
          | Except.error e =>
            (Except.error e, tail.drop len, [consoleMsg c len dec.length])
          | Except.ok v =>
            (Except.ok v, tail.drop len, [consoleMsg c len dec.length])
      else (Except.error eofErr, [], []) := by
  have hinp : tokenOf c ++ writeVarnum len ++ tail =
      tokenBytes c ++ semi :: (writeVarnum len ++ tail) := by
    simp [tokenOf, List.append_assoc]
  rw [decompress, hinp, scanHeader_found (tokenBytes c) 32 _
    (tokenBytes_length_lt c) (tokenBytes_ne_semi c)]
  simp only [resolveToken_tokenBytes, readVarnum_writeVarnum len tail hlen]

/-- Evaluation of `decompress` on a complete frame whose declared length is
exactly the body's length, followed by arbitrary further bytes `extra`: the
body is cut out exactly and `extra` is left unconsumed in every branch. -/
lemma decompress_frame {α : Type} (env : CodecEnv)
    (deserializer : List Nat → Except IoError α) (c : Compression)
    (body extra : List Nat) (hlen : body.length < 2 ^ 32) :
    decompress env deserializer
        (tokenOf c ++ writeVarnum body.length ++ (body ++ extra)) =
      match decompBody env c body with
      | Except.error e => (Except.error e, extra, [])
      | Except.ok dec =>
        match deserializer dec with
        | Except.error e =>
          (Except.error e, extra, [consoleMsg c body.length dec.length])
        | Except.ok v =>
          (Except.ok v, extra, [consoleMsg c body.length dec.length]) := by
  rw [decompress_header_ok env deserializer c body.length (body ++ extra) hlen,
    if_pos (by simp), List.take_left, List.drop_left]

/-! Claim theorems. -/

/-- Claim C1 (amended): for every algorithm, every codec environment
satisfying the collaborator round-trip contract, and every input whose
compressed body is shorter than `2 ^ 32` bytes, compressing and then
decompressing with the identity deserializer yields back exactly the
input. -/
theorem roundTrip_all_algorithms (env : CodecEnv) (c : Compression)
    (d : List Nat) (hgood : GoodEnv env)
    (hlen : (bodyOf env c d).length < 2 ^ 32) :
    (decompress env idDeser (compress env c d).1).1 = Except.ok d := by
  have hframe : (compress env c d).1 =
      tokenOf c ++ writeVarnum (bodyOf env c d).length ++
        (bodyOf env c d ++ []) := by
    show tokenOf c ++ writeVarnum ((bodyOf env c d).length % 2 ^ 32) ++
        bodyOf env c d = _
    rw [Nat.mod_eq_of_lt hlen, List.append_nil]
  rw [hframe, decompress_frame env idDeser c (bodyOf env c d) [] hlen]
  have hdec : decompBody env c (bodyOf env c d) = Except.ok d := by
    cases c with
    | Identity => rfl
    | Gzip => exact hgood.1 d
    | Deflate => exact hgood.2.1 d
    | Brotli => exact hgood.2.2.1 d
    | Lzw => exact hgood.2.2.2 d
  rw [hdec]
  rfl

/-- Witness for the amended claim C1 at the concrete input `[1, 2, 3]` with
the `Identity` algorithm and the trivial codec environment. -/
theorem roundTrip_all_algorithms_witness :
    GoodEnv trivialEnv ∧
    (bodyOf trivialEnv Compression.Identity [1, 2, 3]).length < 2 ^ 32 ∧
    (decompress trivialEnv idDeser
      (compress trivialEnv Compression.Identity [1, 2, 3]).1).1 =
      Except.ok [1, 2, 3] :=
  ⟨⟨fun d => rfl, fun d => rfl, fun d => rfl, fun d => rfl⟩, by decide,
   roundTrip_all_algorithms trivialEnv Compression.Identity [1, 2, 3]
     ⟨fun d => rfl, fun d => rfl, fun d => rfl, fun d => rfl⟩ (by decide)⟩

/-- Counterexample to claim C1 as stated: for the `2 ^ 32`-byte input
(all zeros) with the `Identity` algorithm, the `as u32` cast makes
`compress` declare a zero-length body, so decoding the produced frame with
the identity deserializer returns the empty list, not the input. -/
theorem roundTrip_fails_at_two_pow_32 :
    (decompress trivialEnv idDeser
      (compress trivialEnv Compression.Identity
        (List.replicate (2 ^ 32) 0)).1).1 ≠
      Except.ok (List.replicate (2 ^ 32) 0) := by
  intro hcontra
  have hframe : (compress trivialEnv Compression.Identity
      (List.replicate (2 ^ 32) 0)).1 =
      tokenOf Compression.Identity ++
        writeVarnum ([] : List Nat).length ++
        (([] : List Nat) ++ List.replicate (2 ^ 32) 0) := by
    simp only [compress, bodyOf, List.length_replicate, Nat.mod_self,
      List.length_nil, List.nil_append]
  rw [hframe, decompress_frame trivialEnv idDeser Compression.Identity []
    (List.replicate (2 ^ 32) 0) (by decide)] at hcontra
  simp only [decompBody, idDeser, Except.ok.injEq] at hcontra
  have hL := congrArg List.length hcontra
  rw [List.length_nil, List.length_replicate] at hL
  exact absurd hL (by norm_num)

/-- Claim C2: encoding the five bytes of `b"hello"` with `Identity` writes
exactly `b"identity;"`, then the varint encoding of 5, then `b"hello"`, and
returns `before = 5`, `after = 5`; decoding that frame with the identity
deserializer yields back the five bytes. -/
theorem hello_identity_scenario (env : CodecEnv) :
    compress env Compression.Identity [104, 101, 108, 108, 111] =
      (bIdentity ++ [semi] ++ writeVarnum 5 ++ [104, 101, 108, 108, 111],
       { before := 5, after := 5 }) ∧
    (decompress env idDeser
      (compress env Compression.Identity [104, 101, 108, 108, 111]).1).1 =
      Except.ok [104, 101, 108, 108, 111] := ⟨rfl, rfl⟩

/-- Claim C3: a header resolves to an algorithm exactly when it equals one
of the five tokens, byte for byte; any other header makes `resolveToken` --
and, when it reaches the resolution step, `decompress` itself -- fail with
the invalid-header error. -/
theorem token_resolution_exact (h : List Nat) :
    ((∃ c, resolveToken h = Except.ok c) ↔
      (h = bIdentity ∨ h = bGzip ∨ h = bDeflate ∨ h = bBr ∨ h = bCompress)) ∧
    (¬ (h = bIdentity ∨ h = bGzip ∨ h = bDeflate ∨ h = bBr ∨ h = bCompress) →
      resolveToken h = Except.error invalidHeaderErr ∧
      ∀ {α : Type} (env : CodecEnv)
        (deserializer : List Nat → Except IoError α) (rest : List Nat),
        h.length < 32 → (∀ b ∈ h, b ≠ semi) →
        (decompress env deserializer (h ++ semi :: rest)).1 =
          Except.error invalidHeaderErr) := by
  constructor
  · constructor
    · rintro ⟨c, hc⟩
      by_contra hn
      push_neg at hn
      obtain ⟨h1, h2, h3, h4, h5⟩ := hn
      rw [resolveToken, if_neg h1, if_neg h2, if_neg h3, if_neg h4,
        if_neg h5] at hc
      exact Except.noConfusion hc
    · rintro (rfl | rfl | rfl | rfl | rfl)
      · exact ⟨Compression.Identity, rfl⟩
      · exact ⟨Compression.Gzip, rfl⟩
      · exact ⟨Compression.Deflate, rfl⟩
      · exact ⟨Compression.Brotli, rfl⟩
      · exact ⟨Compression.Lzw, rfl⟩
  · intro hn
    push_neg at hn
    obtain ⟨h1, h2, h3, h4, h5⟩ := hn
    have hres : resolveToken h = Except.error invalidHeaderErr := by
      rw [resolveToken, if_neg h1, if_neg h2, if_neg h3, if_neg h4, if_neg h5]
    refine ⟨hres, ?_⟩
    intro α env deserializer rest hlen hnosemi
    rw [decompress, scanHeader_found h 32 rest hlen hnosemi]
    simp only [hres]

/-- Witness for claim C3 at the concrete unknown header `[120]`
(`b"x"`). -/
theorem token_resolution_exact_witness :
    resolveToken [120] = Except.error invalidHeaderErr ∧
    (decompress trivialEnv idDeser ([120] ++ semi :: [5, 9])).1 =
      Except.error invalidHeaderErr := by
  have hn : ¬ (([120] : List Nat) = bIdentity ∨ ([120] : List Nat) = bGzip ∨
      ([120] : List Nat) = bDeflate ∨ ([120] : List Nat) = bBr ∨
      ([120] : List Nat) = bCompress) := by decide
  exact ⟨((token_resolution_exact [120]).2 hn).1,
    ((token_resolution_exact [120]).2 hn).2 trivialEnv idDeser [5, 9]
      (by decide) (by decide)⟩

/-- Claim C4: when the first 32 bytes of the source exist and contain no
semicolon, `decompress` fails with the invalid-header error after consuming
exactly 32 bytes -- the rest of the source, `inp.drop 32`, is untouched --
and prints nothing. -/
theorem header_scan_bound {α : Type} (env : CodecEnv)
    (deserializer : List Nat → Except IoError α) (inp : List Nat)
    (hlen : 32 ≤ inp.length) (hnosemi : ∀ b ∈ inp.take 32, b ≠ semi) :
    decompress env deserializer inp =
      (Except.error invalidHeaderErr, inp.drop 32, []) := by
  rw [decompress, scanHeader_nosemi 32 inp hlen hnosemi]

/-- Witness for claim C4 at the concrete input of 33 `b"a"` bytes. -/
theorem header_scan_bound_witness :
    32 ≤ (List.replicate 33 97).length ∧
    decompress trivialEnv idDeser (List.replicate 33 97) =
      (Except.error invalidHeaderErr, (List.replicate 33 97).drop 32, []) :=
  ⟨by decide, header_scan_bound trivialEnv idDeser (List.replicate 33 97)
    (by decide) (by decide)⟩

/-- Claim C5 (code behaviour at the failing input): for a `2 ^ 32`-byte
input with `Identity`, `compress` succeeds and writes the varint encoding
of 0 -- the length truncated by the `as u32` cast -- instead of reporting a
fatal encoding error. -/
theorem compress_truncates_silently_at_two_pow_32 :
    compress trivialEnv Compression.Identity (List.replicate (2 ^ 32) 0) =
      (tokenOf Compression.Identity ++ writeVarnum 0 ++
        List.replicate (2 ^ 32) 0,
       { before := 2 ^ 32, after := 2 ^ 32 }) := by
  simp only [compress, bodyOf, List.length_replicate, Nat.mod_self]

/-- Claim C6 (amended): for every encode whose compressed body is shorter
than `2 ^ 32` bytes, the varint written in the frame encodes exactly the
body's byte count, the returned `after` equals that count, and decoding
reads exactly that many body bytes -- any bytes appended after the frame
are left unconsumed. -/
theorem length_exactness {α : Type} (env : CodecEnv)
    (deserializer : List Nat → Except IoError α) (c : Compression)
    (d : List Nat) (hlen : (bodyOf env c d).length < 2 ^ 32) :
    (compress env c d).1 =
      tokenOf c ++ writeVarnum (bodyOf env c d).length ++ bodyOf env c d ∧
    (compress env c d).2.after = (bodyOf env c d).length ∧
    ∀ extra : List Nat,
      (decompress env deserializer ((compress env c d).1 ++ extra)).2.1 =
        extra := by
  have hframe : (compress env c d).1 =
      tokenOf c ++ writeVarnum (bodyOf env c d).length ++ bodyOf env c d := by
    show tokenOf c ++ writeVarnum ((bodyOf env c d).length % 2 ^ 32) ++
        bodyOf env c d = _
    rw [Nat.mod_eq_of_lt hlen]
  refine ⟨hframe, rfl, ?_⟩
  intro extra
  have hframe2 : (compress env c d).1 ++ extra =
      tokenOf c ++ writeVarnum (bodyOf env c d).length ++
        (bodyOf env c d ++ extra) := by
    rw [hframe]
    simp [List.append_assoc]
  rw [hframe2, decompress_frame env deserializer c (bodyOf env c d) extra hlen]
  split
  · rfl
  · split
    · rfl
    · rfl

/-- Witness for the amended claim C6 at the concrete input `[7]` with the
`Identity` algorithm and the trailing byte `[9]`. -/
theorem length_exactness_witness :
    (bodyOf trivialEnv Compression.Identity [7]).length < 2 ^ 32 ∧
    (compress trivialEnv Compression.Identity [7]).1 =
      tokenOf Compression.Identity ++
        writeVarnum (bodyOf trivialEnv Compression.Identity [7]).length ++
        bodyOf trivialEnv Compression.Identity [7] ∧
    (decompress trivialEnv idDeser
      ((compress trivialEnv Compression.Identity [7]).1 ++ [9])).2.1 = [9] :=
  ⟨by decide,
   (length_exactness trivialEnv idDeser Compression.Identity [7]
     (by decide)).1,
   (length_exactness trivialEnv idDeser Compression.Identity [7]
     (by decide)).2.2 [9]⟩

/-- Counterexample to claim C6 as stated: at the `2 ^ 32`-byte input with
`Identity` the encode succeeds, but the frame does not carry the varint of
the true body length -- the written varint encodes 0, not `2 ^ 32`. -/
theorem declared_length_diverges_at_two_pow_32 :
    (compress trivialEnv Compression.Identity (List.replicate (2 ^ 32) 0)).1 ≠
      tokenOf Compression.Identity ++
        writeVarnum (bodyOf trivialEnv Compression.Identity
          (List.replicate (2 ^ 32) 0)).length ++
        bodyOf trivialEnv Compression.Identity (List.replicate (2 ^ 32) 0) := by
  intro hcontra
  have hL : (compress trivialEnv Compression.Identity
      (List.replicate (2 ^ 32) 0)).1 =
      tokenOf Compression.Identity ++
        ([0] ++ List.replicate (2 ^ 32) 0) := by
    simp only [compress, bodyOf, List.length_replicate, Nat.mod_self]
    rw [show writeVarnum 0 = [0] from rfl, List.append_assoc]
  have hR : tokenOf Compression.Identity ++
      writeVarnum (bodyOf trivialEnv Compression.Identity
        (List.replicate (2 ^ 32) 0)).length ++
      bodyOf trivialEnv Compression.Identity (List.replicate (2 ^ 32) 0) =
      tokenOf Compression.Identity ++
        ([128, 128, 128, 128, 16] ++ List.replicate (2 ^ 32) 0) := by
    simp only [bodyOf, List.length_replicate]
    rw [show writeVarnum (2 ^ 32) = [128, 128, 128, 128, 16] from rfl,
      List.append_assoc]
  rw [hL, hR] at hcontra
  have hc2 := List.append_cancel_left hcontra
  have hh := congrArg List.head? hc2
  simp only [List.cons_append, List.head?_cons] at hh
  exact absurd hh (by decide)

/-- Claim C7: a frame that declares more body bytes than the source holds
makes `decompress` fail with the unexpected-EOF error; it never returns a
partial payload as a success. -/
theorem truncated_body_eof {α : Type} (env : CodecEnv)
    (deserializer : List Nat → Except IoError α) (c : Compression)
    (len : Nat) (body : List Nat) (hlen : len < 2 ^ 32)
    (hshort : body.length < len) :
    decompress env deserializer (tokenOf c ++ writeVarnum len ++ body) =
      (Except.error eofErr, [], []) := by
  rw [decompress_header_ok env deserializer c len body hlen,
    if_neg (by omega)]

/-- Witness for claim C7 at the concrete frame declaring 3 body bytes while
providing one. -/
theorem truncated_body_eof_witness :
    (3 : Nat) < 2 ^ 32 ∧ ([1] : List Nat).length < 3 ∧
    decompress trivialEnv idDeser
      (tokenOf Compression.Identity ++ writeVarnum 3 ++ [1]) =
      (Except.error eofErr, [], []) :=
  ⟨by norm_num, by norm_num,
   truncated_body_eof trivialEnv idDeser Compression.Identity 3 [1]
     (by norm_num) (by norm_num)⟩

/-- Claim C9 (code behaviour at the failing input): decoding the frame for
the empty `Identity` payload emits a hardwired console line -- the
`println!` of line 191 -- rather than keeping decode free of side effects
beyond source reads and its return value. -/
theorem decode_emits_console_line :
    (decompress trivialEnv idDeser
      (compress trivialEnv Compression.Identity []).1).2.2 =
      ["Compression detected: Identity, 0 bytes => 0"] := rfl

/-- Claim C10: for every well-formed frame -- token, delimiter, varint of
the body length, exactly that many body bytes -- followed by arbitrary
further bytes, `decompress` consumes exactly the frame: the bytes after it
are returned unconsumed, whatever the decompressor or deserializer do. -/
theorem decode_consumes_exactly_frame {α : Type} (env : CodecEnv)
    (deserializer : List Nat → Except IoError α) (c : Compression)
    (body extra : List Nat) (hlen : body.length < 2 ^ 32) :
    (decompress env deserializer
      (tokenOf c ++ writeVarnum body.length ++ (body ++ extra))).2.1 =
      extra := by
  rw [decompress_frame env deserializer c body extra hlen]
  split
  · rfl
  · split
    · rfl
    · rfl

/-- Witness for claim C10 at a concrete two-byte gzip-tagged frame followed
by two extra bytes. -/
theorem decode_consumes_exactly_frame_witness :
    (([5, 6] : List Nat).length < 2 ^ 32) ∧
    (decompress trivialEnv idDeser
      (tokenOf Compression.Gzip ++ writeVarnum ([5, 6] : List Nat).length ++
        ([5, 6] ++ [7, 8]))).2.1 = [7, 8] :=
  ⟨by norm_num, decode_consumes_exactly_frame trivialEnv idDeser
    Compression.Gzip [5, 6] [7, 8] (by norm_num)⟩
